import Mathlib

/-!
Verification development for the suspense-integrated query reference cache
surrounding `useBackgroundQuery` (src/react/hooks/useBackgroundQuery.ts).

The hook itself is embedded from the source file.  The collaborator modules it
imports (`QueryReference`, the suspense cache, `canonicalStringify`) are not
part of the excerpt, so those are modelled from the spec, as marked in each
doc comment.

Conventions of the shallow embedding:
* object identities (query references, wrappers, promises) are `Nat` tokens;
  fresh tokens are drawn from a monotone counter so that "a new object" is
  literally a token different from every live one;
* JavaScript maps become association lists; promises are their tokens;
* every operation is a total Lean function on an explicit state.
-/

/-! ## Fingerprint key (spec section 4.1, source lines 199-203) -/

/-- Modelled from the spec: `canonicalStringify` is imported by the hook from
`../../cache` and its implementation is not part of the excerpt.  Per spec
section 4.1 it produces a deterministically ordered string form of a variables
mapping: keys are sorted lexicographically before serializing, and `undefined`
variables canonicalize to a fixed empty marker. -/
def canonicalStringify : Option (List (String × String)) → String
  | none => "(undefined)"
  | some vars =>
    let ks := List.insertionSort (fun a b => a ≤ b) (vars.map Prod.fst)
    String.intercalate "," (ks.map (fun k => k ++ ":" ++ ((vars.lookup k).getD "")))

/-- The cache key built by `useBackgroundQuery` (source lines 199-203):
`[query, canonicalStringify(variables), ...queryKey]`.  The query identity is a
token, the spread `queryKey` is the caller-supplied disambiguator sequence. -/
def cacheKey (query : String) (vars : Option (List (String × String)))
    (queryKey : List String) : List String :=
  query :: canonicalStringify vars :: queryKey

theorem lookup_perm_of_nodup_keys {l1 l2 : List (String × String)}
    (h : l1.Perm l2) (nd : (l1.map Prod.fst).Nodup) (k : String) :
    l1.lookup k = l2.lookup k := by
  induction h with
  | nil => rfl
  | cons x h ih =>
    obtain ⟨xk, xv⟩ := x
    simp only [List.map_cons, List.nodup_cons] at nd
    simp only [List.lookup]
    cases hx : (k == xk) with
    | true => rfl
    | false => exact ih nd.2
  | swap x y l =>
    obtain ⟨xk, xv⟩ := x
    obtain ⟨yk, yv⟩ := y
    simp only [List.map_cons, List.nodup_cons, List.mem_cons] at nd
    have hne : yk ≠ xk := fun hEq => nd.1 (Or.inl hEq)
    simp only [List.lookup]
    cases hx : (k == xk) with
    | true =>
      cases hy : (k == yk) with
      | true =>
        exact absurd ((eq_of_beq hy).symm.trans (eq_of_beq hx)) hne
      | false => rfl
    | false =>
      cases hy : (k == yk) with
      | true => rfl
      | false => rfl
  | trans h1 h2 ih1 ih2 =>
    have nd2 := ((h1.map Prod.fst).nodup_iff).mp nd
    exact (ih1 nd).trans (ih2 nd2)

theorem canonicalStringify_perm {vars1 vars2 : List (String × String)}
    (h : vars1.Perm vars2) (nd : (vars1.map Prod.fst).Nodup) :
    canonicalStringify (some vars1) = canonicalStringify (some vars2) := by
  have hs1 : List.Sorted (fun a b : String => a ≤ b)
      (List.insertionSort (fun a b => a ≤ b) (vars1.map Prod.fst)) :=
    List.sorted_insertionSort _ _
  have hs2 : List.Sorted (fun a b : String => a ≤ b)
      (List.insertionSort (fun a b => a ≤ b) (vars2.map Prod.fst)) :=
    List.sorted_insertionSort _ _
  have hp : (List.insertionSort (fun a b : String => a ≤ b) (vars1.map Prod.fst)).Perm
      (List.insertionSort (fun a b => a ≤ b) (vars2.map Prod.fst)) :=
    (List.perm_insertionSort _ _).trans
      ((h.map Prod.fst).trans (List.perm_insertionSort _ _).symm)
  have hkeys := List.eq_of_perm_of_sorted hp hs1 hs2
  simp only [canonicalStringify, hkeys]
  have hmap : ∀ k, k ++ ":" ++ ((vars1.lookup k).getD "")
      = k ++ ":" ++ ((vars2.lookup k).getD "") := by
    intro k
    rw [lookup_perm_of_nodup_keys h nd k]
  exact congrArg (String.intercalate ",")
    (List.map_congr_left (fun k _ => hmap k))

/-- C7: the fingerprint key is invariant under permutation of the variables
mapping (given that the mapping has no duplicate keys), and two keys built for
the same query and variables but different disambiguator sequences are
unequal. -/
theorem cacheKey_perm_invariant_and_disambiguator_separates
    (q : String) (vars1 vars2 : List (String × String)) (d d1 d2 : List String)
    (hperm : vars1.Perm vars2) (hnd : (vars1.map Prod.fst).Nodup)
    (hd : d1 ≠ d2) :
    cacheKey q (some vars1) d = cacheKey q (some vars2) d ∧
    cacheKey q (some vars1) d1 ≠ cacheKey q (some vars1) d2 := by
  constructor
  · unfold cacheKey
    rw [canonicalStringify_perm hperm hnd]
  · intro hcon
    apply hd
    simpa [cacheKey] using hcon

/-- Witness for C7 at a concrete input: the mapping a=1,b=2 permuted to
b=2,a=1 yields the same key, and adding a disambiguator entry changes it. -/
theorem cacheKey_perm_invariant_and_disambiguator_separates_witness :
    cacheKey "Q" (some [("a", "1"), ("b", "2")]) []
      = cacheKey "Q" (some [("b", "2"), ("a", "1")]) [] ∧
    cacheKey "Q" (some [("a", "1"), ("b", "2")]) []
      ≠ cacheKey "Q" (some [("a", "1"), ("b", "2")]) ["x"] :=
  cacheKey_perm_invariant_and_disambiguator_separates
    "Q" [("a", "1"), ("b", "2")] [("b", "2"), ("a", "1")] [] [] ["x"]
    (by decide) (by decide) (by decide)

/-! ## Reference cache (spec section 4.2, source lines 205-207) -/

/-- Modelled from the spec: the suspense cache behind `getSuspenseCache` is not
part of the excerpt.  Per spec section 4.2 it owns a mapping from fingerprint
key to query reference, creating on miss and removing on disposal.  `created`
logs every invocation of the `createFn` factory (the fetch engine issue), and
`nextRef` is the fresh-token counter for reference identities. -/
structure CacheState where
  entries : List (List String × Nat)
  nextRef : Nat
  created : List (List String)
deriving DecidableEq

/-- Modelled from the spec: `getQueryRef(cacheKey, createFn)` (source line 205,
spec `getOrCreate`): return the existing reference for the key if present,
otherwise invoke the factory once, store and return the new reference. -/
def getQueryRef (s : CacheState) (k : List String) : CacheState × Nat :=
  match s.entries.lookup k with
  | some r => (s, r)
  | none =>
    ({ entries := (k, s.nextRef) :: s.entries,
       nextRef := s.nextRef + 1,
       created := k :: s.created }, s.nextRef)

/-- Modelled from the spec: `remove(key, reference)` (spec section 4.2) removes
the mapping only if the stored reference for the key is identical to the one
being removed. -/
def removeRef (s : CacheState) (k : List String) (r : Nat) : CacheState :=
  if s.entries.lookup k = some r then
    { s with entries := s.entries.filter (fun e => !(e.1 == k)) }
  else s

/-- How many times the factory has been invoked for key `k`. -/
def createdCount (s : CacheState) (k : List String) : Nat :=
  (s.created.filter (fun j => j == k)).length

/-- One scheduling tick: a sequence of `getQueryRef` calls with no disposal in
between; returns the final state and the reference each caller received. -/
def runGets (s : CacheState) : List (List String) → CacheState × List Nat
  | [] => (s, [])
  | k :: rest =>
    let p := getQueryRef s k
    let q := runGets p.1 rest
    (q.1, p.2 :: q.2)

theorem lookup_none_not_mem_keys {l : List (List String × Nat)} {k : List String}
    (h : l.lookup k = none) : k ∉ l.map Prod.fst := by
  induction l with
  | nil => simp
  | cons a l ih =>
    obtain ⟨ak, av⟩ := a
    simp only [List.lookup] at h
    cases hk : (k == ak) with
    | true => rw [hk] at h; exact absurd h (by simp)
    | false =>
      rw [hk] at h
      simp only [List.map_cons, List.mem_cons]
      intro hmem
      rcases hmem with hmem | hmem
      · exact absurd (beq_iff_eq.mpr hmem) (by simp [hk])
      · exact ih h hmem

theorem getQueryRef_lookup_stable {s : CacheState} {k : List String} {r : Nat}
    (k' : List String) (h : s.entries.lookup k = some r) :
    ((getQueryRef s k').1).entries.lookup k = some r ∧
    (k' = k → (getQueryRef s k').2 = r) := by
  unfold getQueryRef
  cases hlk : s.entries.lookup k' with
  | some r' =>
    refine ⟨h, fun hk => ?_⟩
    subst hk
    simp only [h] at hlk
    simpa using hlk.symm
  | none =>
    have hne : (k == k') = false := by
      cases hkk : (k == k') with
      | true =>
        rw [beq_iff_eq] at hkk
        subst hkk
        rw [h] at hlk
        exact absurd hlk (by simp)
      | false => rfl
    constructor
    · simp only [List.lookup, hne]
      exact h
    · intro hk
      subst hk
      simp at hne

theorem createdCount_getQueryRef_of_hit {s : CacheState} {k : List String} {r : Nat}
    (c : List String) (h : s.entries.lookup k = some r) :
    createdCount (getQueryRef s c).1 k = createdCount s k := by
  unfold getQueryRef
  cases hlc : s.entries.lookup c with
  | some r' => rfl
  | none =>
    have hck : (c == k) = false := by
      cases hkk : (c == k) with
      | true =>
        rw [beq_iff_eq] at hkk
        subst hkk
        rw [h] at hlc
        exact absurd hlc (by simp)
      | false => rfl
    simp [createdCount, List.filter, hck]

theorem getQueryRef_preserves_miss {s : CacheState} {k : List String}
    (c : List String) (hck : c ≠ k) (h : s.entries.lookup k = none) :
    (getQueryRef s c).1.entries.lookup k = none ∧
    createdCount (getQueryRef s c).1 k = createdCount s k := by
  have hkc : (k == c) = false := beq_eq_false_iff_ne.mpr (fun hkk => hck hkk.symm)
  have hck' : (c == k) = false := beq_eq_false_iff_ne.mpr hck
  unfold getQueryRef
  cases hlc : s.entries.lookup c with
  | some r' => exact ⟨h, rfl⟩
  | none =>
    constructor
    · simp only [List.lookup, hkc]
      exact h
    · simp [createdCount, List.filter, hck']

theorem runGets_hit {s : CacheState} {k : List String} {r : Nat}
    (calls : List (List String)) (h : s.entries.lookup k = some r) :
    createdCount (runGets s calls).1 k = createdCount s k ∧
    ∀ p ∈ calls.zip (runGets s calls).2, p.1 = k → p.2 = r := by
  induction calls generalizing s with
  | nil => exact ⟨rfl, by simp⟩
  | cons c rest ih =>
    have hstable := getQueryRef_lookup_stable (s := s) (k := k) (r := r) c h
    have hcount := createdCount_getQueryRef_of_hit (s := s) (k := k) (r := r) c h
    have hrest := ih hstable.1
    constructor
    · simpa [runGets] using hrest.1.trans hcount
    · intro p hp hpk
      simp only [runGets, List.zip_cons_cons, List.mem_cons] at hp
      rcases hp with hp | hp
      · subst hp
        exact hstable.2 hpk
      · exact hrest.2 p hp hpk

/-- C1: within one scheduling tick (a sequence of `getQueryRef` calls with no
disposal), for every key not already cached, the factory (`createFn`, i.e. the
fetch engine issue) is invoked exactly once however many callers use that key,
and every caller asking for that key receives the same query reference. -/
theorem getQueryRef_dedup
    (s0 : CacheState) (k : List String) (calls : List (List String))
    (hmiss : s0.entries.lookup k = none) (hmem : k ∈ calls) :
    createdCount (runGets s0 calls).1 k = createdCount s0 k + 1 ∧
    ∃ r, ∀ p ∈ calls.zip (runGets s0 calls).2, p.1 = k → p.2 = r := by
  induction calls generalizing s0 with
  | nil => exact absurd hmem (by simp)
  | cons c rest ih =>
    by_cases hc : c = k
    · subst hc
      have hget : getQueryRef s0 c
          = ({ entries := (c, s0.nextRef) :: s0.entries,
               nextRef := s0.nextRef + 1,
               created := c :: s0.created }, s0.nextRef) := by
        unfold getQueryRef
        rw [hmiss]
      have hlk1 : (getQueryRef s0 c).1.entries.lookup c = some s0.nextRef := by
        rw [hget]
        simp [List.lookup]
      have hrest := runGets_hit (s := (getQueryRef s0 c).1) rest hlk1
      have hcnt1 : createdCount (getQueryRef s0 c).1 c = createdCount s0 c + 1 := by
        rw [hget]
        simp [createdCount, List.filter]
      constructor
      · simpa [runGets] using hrest.1.trans hcnt1
      · refine ⟨s0.nextRef, fun p hp hpk => ?_⟩
        simp only [runGets, List.zip_cons_cons, List.mem_cons] at hp
        rcases hp with hp | hp
        · rw [hp, hget]
        · exact hrest.2 p hp hpk
    · have hck : c ≠ k := hc
      have hpres := getQueryRef_preserves_miss (s := s0) c hck hmiss
      have hmem' : k ∈ rest := by
        rcases List.mem_cons.mp hmem with h | h
        · exact absurd h.symm hck
        · exact h
      have hrest := ih (getQueryRef s0 c).1 hpres.1 hmem'
      constructor
      · simpa [runGets] using hrest.1.trans (by rw [hpres.2])
      · obtain ⟨r, hr⟩ := hrest.2
        refine ⟨r, fun p hp hpk => ?_⟩
        simp only [runGets, List.zip_cons_cons, List.mem_cons] at hp
        rcases hp with hp | hp
        · subst hp
          exact absurd hpk hck
        · exact hr p hp hpk

/-- Witness for C1: two callers in one tick ask for the same fresh key; the
factory runs once and both receive reference 0. -/
theorem getQueryRef_dedup_witness :
    createdCount (runGets ⟨[], 0, []⟩ [["Q", "(undefined)"], ["Q", "(undefined)"]]).1
        ["Q", "(undefined)"]
      = createdCount ⟨[], 0, []⟩ ["Q", "(undefined)"] + 1 ∧
    ∃ r, ∀ p ∈ [["Q", "(undefined)"], ["Q", "(undefined)"]].zip
        (runGets ⟨[], 0, []⟩ [["Q", "(undefined)"], ["Q", "(undefined)"]]).2,
      p.1 = ["Q", "(undefined)"] → p.2 = r :=
  getQueryRef_dedup ⟨[], 0, []⟩ ["Q", "(undefined)"]
    [["Q", "(undefined)"], ["Q", "(undefined)"]] (by decide) (by decide)

/-- States of the reference cache reachable from the empty cache through
`getQueryRef` and `removeRef` steps. -/
inductive ReachableCache : CacheState → Prop
  | init : ReachableCache ⟨[], 0, []⟩
  | get (s : CacheState) (k : List String) :
      ReachableCache s → ReachableCache (getQueryRef s k).1
  | remove (s : CacheState) (k : List String) (r : Nat) :
      ReachableCache s → ReachableCache (removeRef s k r)

theorem lookup_filter_ne {l : List (List String × Nat)} {k c : List String}
    (hkc : k ≠ c) :
    (l.filter (fun e => !(e.1 == c))).lookup k = l.lookup k := by
  induction l with
  | nil => rfl
  | cons a l ih =>
    obtain ⟨ak, av⟩ := a
    by_cases hac : ak = c
    · subst hac
      have h1 : (k == ak) = false := beq_eq_false_iff_ne.mpr hkc
      simp only [List.filter, beq_self_eq_true, Bool.not_true, List.lookup, h1]
      exact ih
    · have h2 : (ak == c) = false := beq_eq_false_iff_ne.mpr hac
      simp only [List.filter, h2, Bool.not_false, List.lookup]
      cases hk : (k == ak) with
      | true => rfl
      | false => exact ih

theorem reachable_nodup_keys {s : CacheState} (h : ReachableCache s) :
    (s.entries.map Prod.fst).Nodup := by
  induction h with
  | init => simp
  | get s k _ ih =>
    unfold getQueryRef
    cases hlk : s.entries.lookup k with
    | some r => exact ih
    | none =>
      simp only [List.map_cons, List.nodup_cons]
      exact ⟨lookup_none_not_mem_keys hlk, ih⟩
  | remove s k r _ ih =>
    unfold removeRef
    by_cases hst : s.entries.lookup k = some r
    · rw [if_pos hst]
      exact ((List.filter_sublist _).map Prod.fst).nodup ih
    · rw [if_neg hst]
      exact ih

/-- C9: at every reachable cache state each fingerprint key maps to at most one
live reference (the key list is duplicate-free); a hit adds nothing (entries
are added only on a miss); `removeRef` with a non-matching reference removes
nothing (entries are removed only on disposal of the stored reference); and a
binding for one key is never remapped by operations on another key. -/
theorem cache_at_most_one_ref_per_key
    (s : CacheState) (h : ReachableCache s) :
    (s.entries.map Prod.fst).Nodup ∧
    (∀ k r, s.entries.lookup k = some r → (getQueryRef s k).1 = s) ∧
    (∀ k r, s.entries.lookup k ≠ some r → removeRef s k r = s) ∧
    (∀ k k' r r', k ≠ k' → s.entries.lookup k = some r →
      (getQueryRef s k').1.entries.lookup k = some r ∧
      (removeRef s k' r').entries.lookup k = some r) := by
  refine ⟨reachable_nodup_keys h, ?_, ?_, ?_⟩
  · intro k r hk
    unfold getQueryRef
    rw [hk]
  · intro k r hk
    unfold removeRef
    rw [if_neg hk]
  · intro k k' r r' hne hk
    refine ⟨(getQueryRef_lookup_stable k' hk).1, ?_⟩
    unfold removeRef
    by_cases hst : s.entries.lookup k' = some r'
    · rw [if_pos hst]
      exact (lookup_filter_ne hne).trans hk
    · rw [if_neg hst]
      exact hk

/-- Witness for C9 at a concrete reachable state: the cache holding the single
key K (reached by one `getQueryRef` from the empty cache). -/
theorem cache_at_most_one_ref_per_key_witness :
    ((getQueryRef ⟨[], 0, []⟩ ["K"]).1.entries.map Prod.fst).Nodup :=
  (cache_at_most_one_ref_per_key (getQueryRef ⟨[], 0, []⟩ ["K"]).1
    (ReachableCache.get ⟨[], 0, []⟩ ["K"] ReachableCache.init)).1

/-! ## Retain / release lifecycle (spec sections 3, 4.3; source line 221) -/

/-- Modelled from the spec: the query reference's retain/release counter state.
The `QueryReference` class is not part of the excerpt; per spec section 4.3,
`retain()` increments the count and returns a release callback, each callback
decrements exactly once (idempotent), and the disposer runs exactly once when
the count returns to 0, re-checking the count immediately before disposal.
Callback identities are `Nat` tokens drawn from `nextCb`; `used` records which
callbacks have already taken effect; `disposeRun` counts disposer invocations. -/
structure RefCountState where
  retainCount : Nat
  nextCb : Nat
  used : Finset Nat
  disposed : Bool
  disposeRun : Nat

/-- An operation on one query reference: a `retain()` call (allocating the next
release callback) or an invocation of the release callback `i`. -/
inductive RetainOp
  | retain
  | release (i : Nat)
deriving DecidableEq

/-- Modelled from the spec: effect of one retain or release-callback call.  A
release decrements only if its callback was allocated and has not fired yet;
every later invocation of the same callback is a no-op. -/
def applyOp (s : RefCountState) : RetainOp → RefCountState
  | .retain => { s with retainCount := s.retainCount + 1, nextCb := s.nextCb + 1 }
  | .release i =>
    if i < s.nextCb ∧ i ∉ s.used then
      { s with retainCount := s.retainCount - 1, used := insert i s.used }
    else s

def runOps (s : RefCountState) (ops : List RetainOp) : RefCountState :=
  ops.foldl applyOp s

/-- Modelled from the spec: the deferred disposal check (spec section 3:
"disposal must re-check retain count immediately before removal"): after the
interleaving completes, the disposer runs exactly once if the count is 0 and
the reference is not already disposed. -/
def maybeDispose (s : RefCountState) : RefCountState :=
  if s.retainCount = 0 ∧ s.disposed = false then
    { s with disposed := true, disposeRun := s.disposeRun + 1 }
  else s

/-- Well-formed interleavings: a release callback can only be invoked after the
`retain()` call that returned it (its token is already allocated). -/
def wfOps : Nat → List RetainOp → Bool
  | _, [] => true
  | n, .retain :: rest => wfOps (n + 1) rest
  | n, .release i :: rest => decide (i < n) && wfOps n rest

def numRetains (ops : List RetainOp) : Nat :=
  (ops.filter (fun o => match o with | .retain => true | .release _ => false)).length

/-- The set of callback tokens released somewhere in the interleaving. -/
def releasesSet (ops : List RetainOp) : Finset Nat :=
  ops.foldr (fun o acc => match o with | .retain => acc | .release i => insert i acc) ∅

/-- A reference fresh out of the factory, before any consumer retained it. -/
def initRef : RefCountState := ⟨0, 0, ∅, false, 0⟩

theorem applyOp_retain_eq (s : RefCountState) :
    applyOp s .retain
      = { s with retainCount := s.retainCount + 1, nextCb := s.nextCb + 1 } := rfl

theorem applyOp_release_eq (s : RefCountState) (i : Nat) :
    applyOp s (.release i)
      = if i < s.nextCb ∧ i ∉ s.used then
          { s with retainCount := s.retainCount - 1, used := insert i s.used }
        else s := rfl

theorem applyOp_fields (s : RefCountState) (o : RetainOp) :
    (applyOp s o).disposed = s.disposed ∧ (applyOp s o).disposeRun = s.disposeRun := by
  cases o with
  | retain => exact ⟨rfl, rfl⟩
  | release i =>
    rw [applyOp_release_eq]
    split
    · exact ⟨rfl, rfl⟩
    · exact ⟨rfl, rfl⟩

theorem applyOp_release_nextCb (s : RefCountState) (i : Nat) :
    (applyOp s (.release i)).nextCb = s.nextCb := by
  rw [applyOp_release_eq]
  split
  · rfl
  · rfl

theorem numRetains_cons_retain (rest : List RetainOp) :
    numRetains (.retain :: rest) = numRetains rest + 1 := by
  simp [numRetains, List.filter]

theorem numRetains_cons_release (i : Nat) (rest : List RetainOp) :
    numRetains (.release i :: rest) = numRetains rest := by
  simp [numRetains, List.filter]

theorem runOps_disposed (ops : List RetainOp) (s : RefCountState) :
    (runOps s ops).disposed = s.disposed ∧ (runOps s ops).disposeRun = s.disposeRun := by
  induction ops generalizing s with
  | nil => exact ⟨rfl, rfl⟩
  | cons o rest ih =>
    have hstep := applyOp_fields s o
    have hrest := ih (applyOp s o)
    simp only [runOps, List.foldl_cons] at hrest ⊢
    exact ⟨hrest.1.trans hstep.1, hrest.2.trans hstep.2⟩

theorem runOps_nextCb (ops : List RetainOp) (s : RefCountState) :
    (runOps s ops).nextCb = s.nextCb + numRetains ops := by
  induction ops generalizing s with
  | nil => simp [runOps, numRetains]
  | cons o rest ih =>
    have hrest := ih (applyOp s o)
    simp only [runOps, List.foldl_cons] at hrest ⊢
    rw [hrest]
    cases o with
    | retain =>
      have hcb : (applyOp s RetainOp.retain).nextCb = s.nextCb + 1 := rfl
      rw [hcb, numRetains_cons_retain]
      omega
    | release i =>
      rw [applyOp_release_nextCb, numRetains_cons_release]

theorem runOps_used (ops : List RetainOp) (s : RefCountState)
    (hwf : wfOps s.nextCb ops = true) :
    (runOps s ops).used = s.used ∪ releasesSet ops := by
  induction ops generalizing s with
  | nil => simp [runOps, releasesSet]
  | cons o rest ih =>
    cases o with
    | retain =>
      have hwf' : wfOps (applyOp s .retain).nextCb rest = true := by
        rw [applyOp_retain_eq]
        simpa [wfOps] using hwf
      have hrest := ih (applyOp s .retain) hwf'
      simp only [runOps, List.foldl_cons] at hrest ⊢
      rw [hrest]
      rfl
    | release i =>
      simp only [wfOps, Bool.and_eq_true, decide_eq_true_eq] at hwf
      obtain ⟨hi, hwf⟩ := hwf
      have husd : (applyOp s (.release i)).used = insert i s.used := by
        rw [applyOp_release_eq]
        by_cases hu : i ∈ s.used
        · rw [if_neg (by intro hg; exact hg.2 hu)]
          exact (Finset.insert_eq_self.mpr hu).symm
        · rw [if_pos ⟨hi, hu⟩]
      have hrest := ih (applyOp s (.release i))
        (by rw [applyOp_release_nextCb]; exact hwf)
      simp only [runOps, List.foldl_cons] at hrest ⊢
      rw [hrest, husd]
      simp only [releasesSet, List.foldr_cons]
      rw [Finset.insert_union, Finset.union_insert]

/-- Counter invariant: every used callback was allocated, and the retain count
equals allocated callbacks minus fired callbacks. -/
def RefInv (s : RefCountState) : Prop :=
  s.used ⊆ Finset.range s.nextCb ∧ s.retainCount = s.nextCb - s.used.card

theorem applyOp_inv {s : RefCountState} (h : RefInv s) (o : RetainOp) :
    RefInv (applyOp s o) := by
  obtain ⟨hsub, hcnt⟩ := h
  cases o with
  | retain =>
    rw [applyOp_retain_eq]
    refine ⟨hsub.trans (Finset.range_subset.mpr (Nat.le_succ _)), ?_⟩
    have hcard : s.used.card ≤ s.nextCb := by
      have := Finset.card_le_card hsub
      simpa using this
    simp only []
    omega
  | release i =>
    rw [applyOp_release_eq]
    by_cases hg : i < s.nextCb ∧ i ∉ s.used
    · rw [if_pos hg]
      have hins : insert i s.used ⊆ Finset.range s.nextCb :=
        Finset.insert_subset (Finset.mem_range.mpr hg.1) hsub
      refine ⟨hins, ?_⟩
      have hcard : (insert i s.used).card = s.used.card + 1 :=
        Finset.card_insert_of_not_mem hg.2
      have hle : (insert i s.used).card ≤ s.nextCb := by
        have := Finset.card_le_card hins
        simpa using this
      simp only [hcard] at hle ⊢
      omega
    · rw [if_neg hg]
      exact ⟨hsub, hcnt⟩

theorem runOps_inv (ops : List RetainOp) {s : RefCountState} (h : RefInv s) :
    RefInv (runOps s ops) := by
  induction ops generalizing s with
  | nil => exact h
  | cons o rest ih =>
    simp only [runOps, List.foldl_cons]
    exact ih (applyOp_inv h o)

theorem mem_releasesSet (ops : List RetainOp) (i : Nat) :
    i ∈ releasesSet ops ↔ RetainOp.release i ∈ ops := by
  induction ops with
  | nil => simp [releasesSet]
  | cons o rest ih =>
    cases o with
    | retain =>
      simp only [releasesSet, List.foldr_cons, List.mem_cons] at ih ⊢
      rw [ih]
      constructor
      · exact fun h => Or.inr h
      · intro h
        rcases h with h | h
        · exact absurd h (by simp)
        · exact h
    | release j =>
      simp only [releasesSet, List.foldr_cons, Finset.mem_insert,
        List.mem_cons] at ih ⊢
      rw [ih]
      constructor
      · intro h
        rcases h with h | h
        · exact Or.inl (by rw [h])
        · exact Or.inr h
      · intro h
        rcases h with h | h
        · exact Or.inl (by injection h)
        · exact Or.inr h

theorem maybeDispose_disposed (s : RefCountState) (h : s.disposed = false) :
    ((maybeDispose s).disposed = true ↔ s.retainCount = 0) := by
  unfold maybeDispose
  by_cases hc : s.retainCount = 0
  · rw [if_pos ⟨hc, h⟩]
    simpa using hc
  · rw [if_neg (fun hx => hc hx.1)]
    rw [h]
    simp [hc]

/-- C5: for every well-formed interleaving of retains and releases on one
reference (each release callback fired only after the retain that produced it),
after all calls complete and the deferred disposal check runs, the reference is
disposed exactly when every one of the N allocated release callbacks was
invoked; the right-hand side mentions only which operations occur, not their
order, so the outcome is interleaving-independent. -/
theorem retain_release_order_independent (ops : List RetainOp)
    (hwf : wfOps 0 ops = true) :
    ((maybeDispose (runOps initRef ops)).disposed = true
      ↔ ∀ i < numRetains ops, RetainOp.release i ∈ ops) := by
  have h1 : (runOps initRef ops).disposed = false :=
    (runOps_disposed ops initRef).1
  have h2 : (runOps initRef ops).nextCb = numRetains ops := by
    have := runOps_nextCb ops initRef
    simpa [initRef] using this
  have h3 : (runOps initRef ops).used = releasesSet ops := by
    have := runOps_used ops initRef (by simpa [initRef] using hwf)
    simpa [initRef] using this
  have hinv : RefInv (runOps initRef ops) :=
    runOps_inv ops ⟨by simp [initRef], by simp [initRef]⟩
  rw [maybeDispose_disposed _ h1]
  obtain ⟨hsub, hcnt⟩ := hinv
  constructor
  · intro hz i hi
    have hcard : (runOps initRef ops).nextCb ≤ (runOps initRef ops).used.card := by
      omega
    have hequ : (runOps initRef ops).used
        = Finset.range (runOps initRef ops).nextCb := by
      refine Finset.eq_of_subset_of_card_le hsub ?_
      simpa using hcard
    have : i ∈ (runOps initRef ops).used := by
      rw [hequ, h2]
      exact Finset.mem_range.mpr hi
    rw [h3, mem_releasesSet] at this
    exact this
  · intro hall
    have hsup : Finset.range (runOps initRef ops).nextCb ⊆ (runOps initRef ops).used := by
      intro i hi
      rw [h3, mem_releasesSet]
      exact hall i (by rw [← h2]; exact Finset.mem_range.mp hi)
    have hequ : (runOps initRef ops).used
        = Finset.range (runOps initRef ops).nextCb :=
      Finset.Subset.antisymm hsub hsup
    have hcard : (runOps initRef ops).used.card = (runOps initRef ops).nextCb := by
      rw [hequ]
      simp
    omega

/-- Witness for C5 at a concrete interleaving: two retains, a refetch-style
interleaving of both releases; the reference ends disposed. -/
theorem retain_release_order_independent_witness :
    ((maybeDispose (runOps initRef
        [RetainOp.retain, RetainOp.release 0, RetainOp.retain,
         RetainOp.release 1])).disposed = true
      ↔ ∀ i < numRetains
          [RetainOp.retain, RetainOp.release 0, RetainOp.retain,
           RetainOp.release 1],
          RetainOp.release i
            ∈ [RetainOp.retain, RetainOp.release 0, RetainOp.retain,
               RetainOp.release 1]) :=
  retain_release_order_independent
    [RetainOp.retain, RetainOp.release 0, RetainOp.retain, RetainOp.release 1]
    (by decide)

/-- C6: a release callback is idempotent — invoking it a second time is a
no-op (so the retain count is decremented exactly once and no error is
raised); the disposal check is idempotent; and over any interleaving the
disposer runs at most once, and exactly once precisely when the retain count
has returned to 0. -/
theorem release_idempotent_disposer_once :
    (∀ (s : RefCountState) (i : Nat),
        applyOp (applyOp s (.release i)) (.release i) = applyOp s (.release i)) ∧
    (∀ s : RefCountState, maybeDispose (maybeDispose s) = maybeDispose s) ∧
    (∀ ops : List RetainOp,
        (maybeDispose (runOps initRef ops)).disposeRun ≤ 1 ∧
        ((maybeDispose (runOps initRef ops)).disposeRun = 1
          ↔ (runOps initRef ops).retainCount = 0)) := by
  refine ⟨?_, ?_, ?_⟩
  · intro s i
    by_cases hg : i < s.nextCb ∧ i ∉ s.used
    · rw [applyOp_release_eq s i, if_pos hg, applyOp_release_eq]
      rw [if_neg]
      intro hc
      exact hc.2 (Finset.mem_insert_self i s.used)
    · have h : applyOp s (.release i) = s := by
        rw [applyOp_release_eq, if_neg hg]
      rw [h]
      exact h
  · intro s
    unfold maybeDispose
    by_cases hc : s.retainCount = 0 ∧ s.disposed = false
    · rw [if_pos hc]
      rw [if_neg]
      intro hx
      exact absurd hx.2 (by simp)
    · rw [if_neg hc, if_neg hc]
  · intro ops
    have h1 : (runOps initRef ops).disposed = false :=
      (runOps_disposed ops initRef).1
    have h2 : (runOps initRef ops).disposeRun = 0 :=
      (runOps_disposed ops initRef).2
    unfold maybeDispose
    by_cases hc : (runOps initRef ops).retainCount = 0
    · rw [if_pos ⟨hc, h1⟩]
      simp only [h2]
      exact ⟨by omega, by simp [hc]⟩
    · rw [if_neg (fun hx => hc hx.1)]
      rw [h2]
      exact ⟨by omega, by simp [hc]⟩

/-! ## The hook render machine (source lines 184-249) -/

/-- Fetch configuration.  `fetchPolicy` and `vars` are the semantically
relevant fields (spec section 4.5); `onErrorId` stands for a caller-only
callback that must not affect change detection. -/
structure WatchQueryOptions where
  fetchPolicy : String
  vars : List (String × String)
  onErrorId : Nat
deriving DecidableEq

/-- Modelled from the spec: the option-change detector (spec section 4.5,
`queryRef.didChangeOptions` on source line 216; the `QueryReference` class is
not part of the excerpt).  It compares only the semantically relevant fields
and ignores caller-only callbacks. -/
def didChangeOptions (last newOpts : WatchQueryOptions) : Bool :=
  !(last.fetchPolicy == newOpts.fetchPolicy && last.vars == newOpts.vars)

/-- Modelled from the spec: one query reference (spec section 3): an identity
token, the current promise token, and the snapshot of the options that
produced it.  Retain counting is modelled separately above. -/
structure QueryRefState where
  refId : Nat
  promise : Nat
  lastAppliedOptions : WatchQueryOptions
deriving DecidableEq

/-- Modelled from the spec: `applyOptions` (spec section 4.3, called on source
line 217).  `fresh` is the token of the promise a re-fetch would produce.  If
the detector reports no relevant change the existing promise is returned and
nothing is modified; otherwise the fetch engine is invoked, `currentPromise`
is replaced, `lastAppliedOptions` is updated and the new promise returned. -/
def applyOptions (r : QueryRefState) (fresh : Nat) (newOpts : WatchQueryOptions) :
    QueryRefState × Nat :=
  if didChangeOptions r.lastAppliedOptions newOpts then
    ({ r with promise := fresh, lastAppliedOptions := newOpts }, fresh)
  else (r, r.promise)

/-- Modelled from the spec: the promise wrapper (spec section 4.4), a cell
with its own identity token pairing a reference with the wrapped promise. -/
structure WrappedQueryRef where
  wrapperId : Nat
  refId : Nat
  promise : Nat
deriving DecidableEq

/-- Modelled from the spec: `wrapQueryRef` builds a new wrapper cell (fresh
identity token) for a reference and its current promise. -/
def wrapQueryRef (fresh refId promise : Nat) : WrappedQueryRef :=
  ⟨fresh, refId, promise⟩

/-- Modelled from the spec: `unwrapQueryRef` returns the wrapped pair
(reference, promise); source line 212 uses component 0. -/
def unwrapQueryRef (w : WrappedQueryRef) : Nat × Nat :=
  (w.refId, w.promise)

/-- Modelled from the spec: `updateWrappedQueryRef` replaces the wrapped
promise in place, preserving the wrapper's identity token. -/
def updateWrappedQueryRef (w : WrappedQueryRef) (p : Nat) : WrappedQueryRef :=
  { w with promise := p }

/-- The state one consumer of `useBackgroundQuery` carries between renders:
the reference obtained from the cache, the `useState`-held wrapper cell, the
`didFetchResult` ref (source line 196), and the fresh-token counter. -/
structure RenderState where
  queryRef : QueryRefState
  wrapped : WrappedQueryRef
  didFetchResult : Bool
  nextToken : Nat
deriving DecidableEq

/-- Events driving one consumer: a re-render in which the cache returns the
same reference, a re-render in which the cache returns a different (freshly
created) reference, and the imperative `fetchMore` / `refetch` triggers. -/
inductive HookEvent
  | render (opts : WatchQueryOptions)
  | renderNewRef (opts : WatchQueryOptions)
  | fetchMore
  | refetch
deriving DecidableEq

/-- The body of one render of `useBackgroundQuery` (source lines 196-219)
once the cache lookup has yielded `q`: update `didFetchResult` (lines
196-197), re-wrap only if the unwrapped reference differs from `q` (lines
212-214), and if the options changed apply them and update the wrapper's
promise in place (lines 216-219).  `t0` is the fresh-token counter. -/
def renderBody (q : QueryRefState) (w0 : WrappedQueryRef) (dfr0 : Bool)
    (t0 : Nat) (opts : WatchQueryOptions) : RenderState :=
  if (unwrapQueryRef w0).1 == q.refId then
    if didChangeOptions q.lastAppliedOptions opts then
      { queryRef := (applyOptions q t0 opts).1,
        wrapped := updateWrappedQueryRef w0 (applyOptions q t0 opts).2,
        didFetchResult := dfr0 || !(opts.fetchPolicy == "standby"),
        nextToken := t0 + 1 }
    else
      { queryRef := q, wrapped := w0,
        didFetchResult := dfr0 || !(opts.fetchPolicy == "standby"),
        nextToken := t0 }
  else
    if didChangeOptions q.lastAppliedOptions opts then
      { queryRef := (applyOptions q (t0 + 1) opts).1,
        wrapped := updateWrappedQueryRef (wrapQueryRef t0 q.refId q.promise)
          (applyOptions q (t0 + 1) opts).2,
        didFetchResult := dfr0 || !(opts.fetchPolicy == "standby"),
        nextToken := t0 + 2 }
    else
      { queryRef := q, wrapped := wrapQueryRef t0 q.refId q.promise,
        didFetchResult := dfr0 || !(opts.fetchPolicy == "standby"),
        nextToken := t0 + 1 }

/-- One step of the consumer.  `render` re-runs the hook body with the cached
reference; `renderNewRef` re-runs it after the cache produced a brand-new
reference freshly created with `opts`; `fetchMore` and `refetch` (source
lines 223-243) always produce a new promise on the same reference and then
install a brand-new wrapper via `setWrappedQueryRef`. -/
def hookStep (s : RenderState) : HookEvent → RenderState
  | .render opts =>
    renderBody s.queryRef s.wrapped s.didFetchResult s.nextToken opts
  | .renderNewRef opts =>
    renderBody ⟨s.nextToken, s.nextToken + 1, opts⟩ s.wrapped s.didFetchResult
      (s.nextToken + 2) opts
  | .fetchMore =>
    { queryRef := { s.queryRef with promise := s.nextToken },
      wrapped := wrapQueryRef (s.nextToken + 1) s.queryRef.refId s.nextToken,
      didFetchResult := s.didFetchResult,
      nextToken := s.nextToken + 2 }
  | .refetch =>
    { queryRef := { s.queryRef with promise := s.nextToken },
      wrapped := wrapQueryRef (s.nextToken + 1) s.queryRef.refId s.nextToken,
      didFetchResult := s.didFetchResult,
      nextToken := s.nextToken + 2 }

/-- The consumer's first render (mount): the cache misses and creates
reference 0 with promise 1, the `useState` initializer wraps it with wrapper
identity 2, and `didFetchResult` starts as `fetchPolicy !== "standby"`
(source lines 196, 205-211). -/
def initRender (opts : WatchQueryOptions) : RenderState :=
  { queryRef := ⟨0, 1, opts⟩,
    wrapped := wrapQueryRef 2 0 1,
    didFetchResult := !(opts.fetchPolicy == "standby"),
    nextToken := 3 }

/-- The first component of the pair the hook returns (source lines 245-248):
the wrapper if query execution has ever been enabled, else `undefined`. -/
def queryRefResult (s : RenderState) : Option WrappedQueryRef :=
  if s.didFetchResult then some s.wrapped else none

def runEvents (s : RenderState) (es : List HookEvent) : RenderState :=
  es.foldl hookStep s

/-- Freshness invariant: every live token is below the counter. -/
def TokenInv (s : RenderState) : Prop :=
  s.wrapped.wrapperId < s.nextToken ∧ s.wrapped.refId < s.nextToken ∧
  s.wrapped.promise < s.nextToken ∧ s.queryRef.refId < s.nextToken ∧
  s.queryRef.promise < s.nextToken

theorem applyOptions_refId (q : QueryRefState) (fresh : Nat)
    (opts : WatchQueryOptions) : (applyOptions q fresh opts).1.refId = q.refId := by
  unfold applyOptions
  split
  · rfl
  · rfl

theorem didChangeOptions_self (o : WatchQueryOptions) :
    didChangeOptions o o = false := by
  simp [didChangeOptions]

theorem renderBody_tokenInv {q : QueryRefState} {w0 : WrappedQueryRef}
    {t0 : Nat} (dfr0 : Bool) (opts : WatchQueryOptions)
    (hq1 : q.refId < t0) (hq2 : q.promise < t0)
    (hw1 : w0.wrapperId < t0) (hw2 : w0.refId < t0) (hw3 : w0.promise < t0) :
    TokenInv (renderBody q w0 dfr0 t0 opts) := by
  unfold renderBody TokenInv
  by_cases hb : ((unwrapQueryRef w0).1 == q.refId) = true
  · rw [if_pos hb]
    by_cases hc : didChangeOptions q.lastAppliedOptions opts = true
    · rw [if_pos hc]
      unfold applyOptions
      rw [if_pos hc]
      simp only [updateWrappedQueryRef]
      refine ⟨?_, ?_, ?_, ?_, ?_⟩ <;> dsimp only <;> omega
    · rw [if_neg hc]
      refine ⟨?_, ?_, ?_, ?_, ?_⟩ <;> dsimp only <;> omega
  · rw [if_neg hb]
    by_cases hc : didChangeOptions q.lastAppliedOptions opts = true
    · rw [if_pos hc]
      unfold applyOptions
      rw [if_pos hc]
      simp only [updateWrappedQueryRef, wrapQueryRef]
      refine ⟨?_, ?_, ?_, ?_, ?_⟩ <;> dsimp only <;> omega
    · rw [if_neg hc]
      simp only [wrapQueryRef]
      refine ⟨?_, ?_, ?_, ?_, ?_⟩ <;> dsimp only <;> omega

theorem hookStep_tokenInv {s : RenderState} (h : TokenInv s) (e : HookEvent) :
    TokenInv (hookStep s e) := by
  obtain ⟨h1, h2, h3, h4, h5⟩ := h
  cases e with
  | render opts =>
    exact renderBody_tokenInv s.didFetchResult opts h4 h5 h1 h2 h3
  | renderNewRef opts =>
    refine renderBody_tokenInv s.didFetchResult opts ?_ ?_ ?_ ?_ ?_ <;>
      dsimp only <;> omega
  | fetchMore =>
    refine ⟨?_, ?_, ?_, ?_, ?_⟩ <;> dsimp only [hookStep, wrapQueryRef] <;> omega
  | refetch =>
    refine ⟨?_, ?_, ?_, ?_, ?_⟩ <;> dsimp only [hookStep, wrapQueryRef] <;> omega

theorem renderBody_norewrap_nochange (q : QueryRefState) (w0 : WrappedQueryRef)
    (dfr0 : Bool) (t0 : Nat) (opts : WatchQueryOptions)
    (hb : ((unwrapQueryRef w0).1 == q.refId) = true)
    (hc : didChangeOptions q.lastAppliedOptions opts = false) :
    renderBody q w0 dfr0 t0 opts
      = { queryRef := q, wrapped := w0,
          didFetchResult := dfr0 || !(opts.fetchPolicy == "standby"),
          nextToken := t0 } := by
  unfold renderBody
  rw [if_pos hb, if_neg (by simp [hc])]

theorem renderBody_norewrap_change (q : QueryRefState) (w0 : WrappedQueryRef)
    (dfr0 : Bool) (t0 : Nat) (opts : WatchQueryOptions)
    (hb : ((unwrapQueryRef w0).1 == q.refId) = true)
    (hc : didChangeOptions q.lastAppliedOptions opts = true) :
    renderBody q w0 dfr0 t0 opts
      = { queryRef := (applyOptions q t0 opts).1,
          wrapped := updateWrappedQueryRef w0 (applyOptions q t0 opts).2,
          didFetchResult := dfr0 || !(opts.fetchPolicy == "standby"),
          nextToken := t0 + 1 } := by
  unfold renderBody
  rw [if_pos hb, if_pos hc]

theorem renderBody_rewrap_nochange (q : QueryRefState) (w0 : WrappedQueryRef)
    (dfr0 : Bool) (t0 : Nat) (opts : WatchQueryOptions)
    (hb : ((unwrapQueryRef w0).1 == q.refId) = false)
    (hc : didChangeOptions q.lastAppliedOptions opts = false) :
    renderBody q w0 dfr0 t0 opts
      = { queryRef := q, wrapped := wrapQueryRef t0 q.refId q.promise,
          didFetchResult := dfr0 || !(opts.fetchPolicy == "standby"),
          nextToken := t0 + 1 } := by
  unfold renderBody
  rw [if_neg (by simp [hb]), if_neg (by simp [hc])]

/-- C2 (amended): across two successive renders of the same consumer the
wrapper identity is preserved when the cache returns the unchanged query
reference — even if the options changed and the promise was replaced in
place — and the wrapper identity changes whenever the cache returns a
different query reference.  (As stated the claim fails: `fetchMore`/`refetch`
deliberately install a brand-new wrapper for the same reference, see the
counterexample.) -/
theorem wrapper_identity_tracks_reference :
    (∀ (s : RenderState) (opts : WatchQueryOptions),
        s.wrapped.refId = s.queryRef.refId →
        ((hookStep s (.render opts)).queryRef.refId = s.queryRef.refId ∧
         (hookStep s (.render opts)).wrapped.wrapperId = s.wrapped.wrapperId)) ∧
    (∀ (s : RenderState) (opts : WatchQueryOptions),
        TokenInv s →
        ((hookStep s (.renderNewRef opts)).queryRef.refId ≠ s.queryRef.refId ∧
         (hookStep s (.renderNewRef opts)).wrapped.wrapperId ≠ s.wrapped.wrapperId)) := by
  constructor
  · intro s opts hw
    have hb : ((unwrapQueryRef s.wrapped).1 == s.queryRef.refId) = true :=
      beq_iff_eq.mpr hw
    simp only [hookStep]
    by_cases hc : didChangeOptions s.queryRef.lastAppliedOptions opts = true
    · rw [renderBody_norewrap_change s.queryRef s.wrapped s.didFetchResult
        s.nextToken opts hb hc]
      exact ⟨applyOptions_refId _ _ _, rfl⟩
    · rw [renderBody_norewrap_nochange s.queryRef s.wrapped s.didFetchResult
        s.nextToken opts hb (Bool.not_eq_true _ ▸ hc)]
      exact ⟨rfl, rfl⟩
  · intro s opts hinv
    obtain ⟨h1, h2, h3, h4, h5⟩ := hinv
    have hb : ((unwrapQueryRef s.wrapped).1
        == (⟨s.nextToken, s.nextToken + 1, opts⟩ : QueryRefState).refId) = false := by
      refine beq_eq_false_iff_ne.mpr ?_
      dsimp only [unwrapQueryRef]
      omega
    have hc : didChangeOptions
        (⟨s.nextToken, s.nextToken + 1, opts⟩ : QueryRefState).lastAppliedOptions opts
          = false :=
      didChangeOptions_self opts
    simp only [hookStep]
    rw [renderBody_rewrap_nochange _ s.wrapped s.didFetchResult
      (s.nextToken + 2) opts hb hc]
    constructor
    · dsimp only [wrapQueryRef]
      omega
    · dsimp only [wrapQueryRef]
      omega

/-- Concrete options: a plain enabled query with no variables. -/
def optsA : WatchQueryOptions := ⟨"cache-first", [], 0⟩

/-- Concrete options: same policy, different variables (a genuine change).
Changing the variables also changes the cache key (source lines 199-203), so
the cache answers with a different reference: these options drive
`renderNewRef` events. -/
def optsB : WatchQueryOptions := ⟨"cache-first", [("id", "2")], 0⟩

/-- Concrete options: same variables, different fetch policy (a genuine
change that does NOT affect the cache key, since the key is built from the
query and variables only, source lines 199-203): the cache still returns the
same reference, and `didChangeOptions` reports a change. -/
def optsC : WatchQueryOptions := ⟨"network-only", [], 0⟩

/-- Counterexample to C2 as stated: after a `fetchMore` between two renders,
the query reference is unchanged yet the consumer's wrapper identity differs,
refuting "same identity if and only if same reference". -/
theorem wrapper_identity_changes_despite_same_reference :
    (runEvents (initRender optsA)
        [HookEvent.fetchMore, HookEvent.render optsA]).queryRef.refId
      = (initRender optsA).queryRef.refId ∧
    (runEvents (initRender optsA)
        [HookEvent.fetchMore, HookEvent.render optsA]).wrapped.wrapperId
      ≠ (initRender optsA).wrapped.wrapperId := by
  decide

/-- Witness for C2 (amended) at a concrete state: a same-reference render
keeps both the reference and the wrapper identity; a new-reference render
changes both. -/
theorem wrapper_identity_tracks_reference_witness :
    ((hookStep (initRender optsA) (HookEvent.render optsA)).queryRef.refId
        = (initRender optsA).queryRef.refId ∧
      (hookStep (initRender optsA) (HookEvent.render optsA)).wrapped.wrapperId
        = (initRender optsA).wrapped.wrapperId) ∧
    ((hookStep (initRender optsA) (HookEvent.renderNewRef optsB)).queryRef.refId
        ≠ (initRender optsA).queryRef.refId ∧
      (hookStep (initRender optsA) (HookEvent.renderNewRef optsB)).wrapped.wrapperId
        ≠ (initRender optsA).wrapped.wrapperId) :=
  ⟨wrapper_identity_tracks_reference.1 (initRender optsA) optsA (by decide),
   wrapper_identity_tracks_reference.2 (initRender optsA) optsB
     (by unfold TokenInv; decide)⟩

/-- C3 (amended): when the option-change detector reports a genuine change,
the render applies the options — issuing a new promise and recording the new
options — but updates the consumer's wrapper in place: the wrapper identity
is preserved, and the wrapper carries the re-fetched promise.  (As stated the
claim fails: the identity does not change, see the counterexample.) -/
theorem options_change_updates_wrapper_in_place
    (s : RenderState) (opts : WatchQueryOptions)
    (hinv : TokenInv s)
    (hw : s.wrapped.refId = s.queryRef.refId)
    (hc : didChangeOptions s.queryRef.lastAppliedOptions opts = true) :
    (hookStep s (.render opts)).wrapped.wrapperId = s.wrapped.wrapperId ∧
    (hookStep s (.render opts)).queryRef.promise ≠ s.queryRef.promise ∧
    (hookStep s (.render opts)).wrapped.promise
      = (hookStep s (.render opts)).queryRef.promise ∧
    (hookStep s (.render opts)).queryRef.lastAppliedOptions = opts := by
  obtain ⟨h1, h2, h3, h4, h5⟩ := hinv
  have hb : ((unwrapQueryRef s.wrapped).1 == s.queryRef.refId) = true :=
    beq_iff_eq.mpr hw
  simp only [hookStep]
  rw [renderBody_norewrap_change s.queryRef s.wrapped s.didFetchResult
    s.nextToken opts hb hc]
  unfold applyOptions
  rw [if_pos hc]
  refine ⟨rfl, ?_, rfl, rfl⟩
  dsimp only
  omega

/-- Counterexample to C3 as stated: at the mounted state, rendering with a
genuinely changed fetch policy (a change that leaves the cache key — and so
the reference — untouched) triggers `applyOptions`, yet the wrapper exposed
to the consumer has the same identity as before. -/
theorem options_change_keeps_wrapper_identity_example :
    didChangeOptions (initRender optsA).queryRef.lastAppliedOptions optsC = true ∧
    (hookStep (initRender optsA) (HookEvent.render optsC)).wrapped.wrapperId
      = (initRender optsA).wrapped.wrapperId := by
  decide

/-- Witness for C3 (amended) at the mounted state with a changed fetch
policy (the cache key, and hence the reference, stays the same). -/
theorem options_change_updates_wrapper_in_place_witness :
    (hookStep (initRender optsA) (HookEvent.render optsC)).wrapped.wrapperId
      = (initRender optsA).wrapped.wrapperId ∧
    (hookStep (initRender optsA) (HookEvent.render optsC)).queryRef.promise
      ≠ (initRender optsA).queryRef.promise ∧
    (hookStep (initRender optsA) (HookEvent.render optsC)).wrapped.promise
      = (hookStep (initRender optsA) (HookEvent.render optsC)).queryRef.promise ∧
    (hookStep (initRender optsA) (HookEvent.render optsC)).queryRef.lastAppliedOptions
      = optsC :=
  options_change_updates_wrapper_in_place (initRender optsA) optsC
    (by unfold TokenInv; decide) (by decide) (by decide)

/-- C4 (amended): `fetchMore` and `refetch` always produce a new promise on
the same query reference, and then install a brand-new wrapper (fresh
identity) carrying that promise via `setWrappedQueryRef`, signalling
re-subscription to the consumer.  (As stated the claim fails: the wrapper is
not updated in place — its identity changes, see the counterexample.) -/
theorem fetchMore_new_promise_new_wrapper (s : RenderState) (hinv : TokenInv s) :
    ((hookStep s .fetchMore).queryRef.refId = s.queryRef.refId ∧
     (hookStep s .fetchMore).queryRef.promise ≠ s.queryRef.promise ∧
     (hookStep s .fetchMore).wrapped.wrapperId ≠ s.wrapped.wrapperId ∧
     (hookStep s .fetchMore).wrapped.refId = s.queryRef.refId ∧
     (hookStep s .fetchMore).wrapped.promise
       = (hookStep s .fetchMore).queryRef.promise) ∧
    ((hookStep s .refetch).queryRef.refId = s.queryRef.refId ∧
     (hookStep s .refetch).queryRef.promise ≠ s.queryRef.promise ∧
     (hookStep s .refetch).wrapped.wrapperId ≠ s.wrapped.wrapperId ∧
     (hookStep s .refetch).wrapped.refId = s.queryRef.refId ∧
     (hookStep s .refetch).wrapped.promise
       = (hookStep s .refetch).queryRef.promise) := by
  obtain ⟨h1, h2, h3, h4, h5⟩ := hinv
  constructor
  · refine ⟨rfl, ?_, ?_, rfl, rfl⟩ <;>
      dsimp only [hookStep, wrapQueryRef] <;> omega
  · refine ⟨rfl, ?_, ?_, rfl, rfl⟩ <;>
      dsimp only [hookStep, wrapQueryRef] <;> omega

/-- Counterexample to C4 as stated: a `fetchMore` at the mounted state keeps
the query reference but gives the consumer a wrapper with a different
identity — the wrapper is not updated in place. -/
theorem fetchMore_wrapper_not_updated_in_place_example :
    (hookStep (initRender optsA) HookEvent.fetchMore).queryRef.refId
      = (initRender optsA).queryRef.refId ∧
    (hookStep (initRender optsA) HookEvent.fetchMore).wrapped.wrapperId
      ≠ (initRender optsA).wrapped.wrapperId := by
  decide

/-- Witness for C4 (amended) at the mounted state. -/
theorem fetchMore_new_promise_new_wrapper_witness :
    (hookStep (initRender optsA) HookEvent.fetchMore).queryRef.refId
      = (initRender optsA).queryRef.refId ∧
    (hookStep (initRender optsA) HookEvent.fetchMore).queryRef.promise
      ≠ (initRender optsA).queryRef.promise ∧
    (hookStep (initRender optsA) HookEvent.fetchMore).wrapped.wrapperId
      ≠ (initRender optsA).wrapped.wrapperId ∧
    (hookStep (initRender optsA) HookEvent.fetchMore).wrapped.refId
      = (initRender optsA).queryRef.refId ∧
    (hookStep (initRender optsA) HookEvent.fetchMore).wrapped.promise
      = (hookStep (initRender optsA) HookEvent.fetchMore).queryRef.promise :=
  (fetchMore_new_promise_new_wrapper (initRender optsA)
    (by unfold TokenInv; decide)).1

/-- C8: `applyOptions` is the identity when the option-change detector
reports no relevant change — it returns the existing promise and neither the
promise nor `lastAppliedOptions` is modified; when a change is reported it
keeps the reference identity, installs the freshly issued promise, records
the new options, and returns that new promise. -/
theorem applyOptions_refetch_iff_options_changed
    (r : QueryRefState) (fresh : Nat) (opts : WatchQueryOptions)
    (hfr : r.promise < fresh) :
    (didChangeOptions r.lastAppliedOptions opts = false →
      applyOptions r fresh opts = (r, r.promise)) ∧
    (didChangeOptions r.lastAppliedOptions opts = true →
      ((applyOptions r fresh opts).1.refId = r.refId ∧
       (applyOptions r fresh opts).1.promise = fresh ∧
       (applyOptions r fresh opts).1.lastAppliedOptions = opts ∧
       (applyOptions r fresh opts).2 = fresh ∧
       (applyOptions r fresh opts).2 ≠ r.promise)) := by
  constructor
  · intro hc
    unfold applyOptions
    rw [if_neg (by simp [hc])]
  · intro hc
    unfold applyOptions
    rw [if_pos hc]
    refine ⟨rfl, rfl, rfl, rfl, ?_⟩
    dsimp only
    omega

/-- Witness for C8 at a concrete reference: unchanged options leave the
promise alone; changed variables produce the fresh promise. -/
theorem applyOptions_refetch_iff_options_changed_witness :
    (didChangeOptions (⟨0, 1, optsA⟩ : QueryRefState).lastAppliedOptions optsA = false →
      applyOptions ⟨0, 1, optsA⟩ 2 optsA = (⟨0, 1, optsA⟩, 1)) ∧
    (didChangeOptions (⟨0, 1, optsA⟩ : QueryRefState).lastAppliedOptions optsA = true →
      ((applyOptions ⟨0, 1, optsA⟩ 2 optsA).1.refId = 0 ∧
       (applyOptions ⟨0, 1, optsA⟩ 2 optsA).1.promise = 2 ∧
       (applyOptions ⟨0, 1, optsA⟩ 2 optsA).1.lastAppliedOptions = optsA ∧
       (applyOptions ⟨0, 1, optsA⟩ 2 optsA).2 = 2 ∧
       (applyOptions ⟨0, 1, optsA⟩ 2 optsA).2 ≠ 1)) :=
  applyOptions_refetch_iff_options_changed ⟨0, 1, optsA⟩ 2 optsA (by decide)

/-- Whether an event can enable query execution: a render whose resolved
fetch policy is not "standby" (source lines 196-197). -/
def eventEnables : HookEvent → Bool
  | .render opts => !(opts.fetchPolicy == "standby")
  | .renderNewRef opts => !(opts.fetchPolicy == "standby")
  | .fetchMore => false
  | .refetch => false

theorem hookStep_didFetch (s : RenderState) (e : HookEvent) :
    (hookStep s e).didFetchResult = (s.didFetchResult || eventEnables e) := by
  cases e with
  | render opts =>
    simp only [hookStep, eventEnables]
    unfold renderBody
    split
    · split
      · rfl
      · rfl
    · split
      · rfl
      · rfl
  | renderNewRef opts =>
    simp only [hookStep, eventEnables]
    unfold renderBody
    split
    · split
      · rfl
      · rfl
    · split
      · rfl
      · rfl
  | fetchMore => simp [hookStep, eventEnables]
  | refetch => simp [hookStep, eventEnables]

theorem runEvents_didFetch (es : List HookEvent) (s : RenderState) :
    (runEvents s es).didFetchResult = (s.didFetchResult || es.any eventEnables) := by
  induction es generalizing s with
  | nil => simp [runEvents]
  | cons e rest ih =>
    simp only [runEvents, List.foldl_cons] at ih ⊢
    rw [ih (hookStep s e), hookStep_didFetch, List.any_cons, Bool.or_assoc]

/-- C10: the first component of the hook's returned pair is monotone in
enablement — once `didFetchResult` is set it stays set and the hook keeps
returning a defined wrapper on every later render — and starting from a mount
it is `undefined` exactly as long as the mount policy and every event so far
has been "standby" (no render has enabled execution). -/
theorem queryRef_defined_monotone :
    (∀ (s : RenderState) (es : List HookEvent),
        s.didFetchResult = true →
        queryRefResult (runEvents s es) = some (runEvents s es).wrapped) ∧
    (∀ (opts0 : WatchQueryOptions) (es : List HookEvent),
        (queryRefResult (runEvents (initRender opts0) es) = none ↔
          (opts0.fetchPolicy = "standby" ∧ ∀ e ∈ es, eventEnables e = false))) := by
  constructor
  · intro s es hs
    have h := runEvents_didFetch es s
    rw [hs] at h
    simp only [Bool.true_or] at h
    unfold queryRefResult
    rw [if_pos h]
  · intro opts0 es
    have h := runEvents_didFetch es (initRender opts0)
    have hnone : queryRefResult (runEvents (initRender opts0) es) = none ↔
        (runEvents (initRender opts0) es).didFetchResult = false := by
      unfold queryRefResult
      cases hd : (runEvents (initRender opts0) es).didFetchResult with
      | true => simp [hd]
      | false => simp [hd]
    rw [hnone, h]
    have hinit : (initRender opts0).didFetchResult
        = !(opts0.fetchPolicy == "standby") := rfl
    rw [hinit]
    simp only [Bool.or_eq_false_iff, Bool.not_eq_false', beq_iff_eq,
      List.any_eq_false]
    constructor
    · intro hx
      exact ⟨hx.1, fun e he => Bool.not_eq_true _ ▸ (hx.2 e he)⟩
    · intro hx
      exact ⟨hx.1, fun e he => Bool.not_eq_true _ ▸ (hx.2 e he)⟩

/-- Witness for C10: once the mount render was enabled, a later skipped
(standby) render still returns a defined wrapper. -/
theorem queryRef_defined_monotone_witness :
    queryRefResult (runEvents (initRender optsA)
        [HookEvent.render ⟨"standby", [], 0⟩])
      = some (runEvents (initRender optsA)
        [HookEvent.render ⟨"standby", [], 0⟩]).wrapped :=
  queryRef_defined_monotone.1 (initRender optsA)
    [HookEvent.render ⟨"standby", [], 0⟩] (by decide)
